import Mathlib

/-!
Verification of the multi-key blockchain scanner core
(`src/processor/scanner/src/lib.rs`) and the legacy Ethereum transaction
lookup (`src/processor/ethereum/TODO/old_processor.rs`).

The Rust code is shallowly embedded: machine integers (`u64`) become `Nat`
(the code only adds and subtracts small values, with underflow guarded by
the surrounding asserts), fallible operations return `Option`/`Except`, a
`panic!`/`assert!` becomes a `none`/dedicated constructor carrying the
panic message, and database state becomes an explicit record threaded
through the functions.
-/

namespace Scanner

/-- Byte strings (each entry is one byte of an ID / hash). -/
abbrev Bytes := List Nat

/-- Rust `<[u8]>::cmp`: lexicographic comparison of byte slices, shorter
prefixes compare less. This embeds `a.id().as_ref().cmp(b.id().as_ref())`. -/
def bytesCmp : Bytes → Bytes → Ordering
  | [], [] => .eq
  | [], _ :: _ => .lt
  | _ :: _, [] => .gt
  | a :: as, b :: bs =>
    match compare a b with
    | .eq => bytesCmp as bs
    | r => r

/-- An output, as consumed by the scanner: the claims under study only
inspect its `id()`; the rest of `ReceivedOutput` (kind, key, address,
balance, data) is abstracted as an opaque payload. -/
structure Output where
  id : Bytes
  payload : Nat
deriving DecidableEq

/-- `sort_outputs` (src/processor/scanner/src/lib.rs:30-38): compares two
outputs by the byte comparison of their IDs and asserts the result is not
`Equal`. `none` is the panic
"two outputs within a collection had the same ID". -/
def sort_outputs (a b : Output) : Option Ordering :=
  let res := bytesCmp a.id b.id
  if res = .eq then none else some res

/-- The strict "before" order `sort_outputs` sorts by. -/
def outLt (a b : Output) : Prop := bytesCmp a.id b.id = .lt

/-- `Vec::sort_by(sort_outputs)`, modelled as stable insertion sort with
the panicking comparator threaded through (`none` = the comparator's
panic on byte-equal IDs). Rust's stable sort and insertion sort agree on
the result — the sorted permutation is unique once IDs are distinct —
and both compare duplicate IDs directly, panicking. -/
def insertOutput (x : Output) : List Output → Option (List Output)
  | [] => some [x]
  | y :: ys =>
    match sort_outputs x y with
    | none => none
    | some .lt => some (x :: y :: ys)
    | some _ => (insertOutput x ys).map (y :: ·)

def sortByOutputs : List Output → Option (List Output)
  | [] => some []
  | x :: xs =>
    match sortByOutputs xs with
    | none => none
    | some l => insertOutput x l

/-- A key is opaque to the claims under study. -/
abbrev Key := Nat

/-- A block: an ID plus the chain-specific unordered output scan
(`Block::scan_for_outputs_unordered` is provided by each chain; it is a
parameter here). -/
structure Block where
  id : Bytes
  scan_for_outputs_unordered : Key → List Output

/-- `BlockExt::scan_for_outputs` (src/processor/scanner/src/lib.rs:44-50):
the unordered scan, sorted by `sort_outputs`; `none` is the duplicate-ID
panic raised by the comparator. -/
def Block.scan_for_outputs (b : Block) (key : Key) : Option (List Output) :=
  sortByOutputs (b.scan_for_outputs_unordered key)

/-- Modelled from the spec: the scanner's persisted global state as seen
through the `db` module's accessors (absent from the excerpt) —
`scanner/notable/<n>` (`is_block_notable`), `scanner/acked`
(`highest_acknowledged_block` / `set_highest_acknowledged_block`),
`scanner/queued_key/<n>` (`queue_key`) and `scanner/burns/<acked_as_of>`
(`send_burns`). Burns (`OutInstructionWithBalance`) are opaque. -/
structure ScannerDb where
  notable : Nat → Bool
  highestAcknowledgedBlock : Option Nat
  queuedKeys : List (Nat × Key)
  pendingBurns : List (Nat × List Nat)

/-- The writes `acknowledge_block` performs once its asserts pass:
`set_highest_acknowledged_block(block_number)` and, when a key is given,
`queue_key(block_number + WINDOW_LENGTH, key)`. -/
def commitAcknowledge (WINDOW_LENGTH : Nat) (db : ScannerDb)
    (block_number : Nat) (key_to_activate : Option Key) : ScannerDb :=
  { db with
    highestAcknowledgedBlock := some block_number
    queuedKeys :=
      match key_to_activate with
      | some key => (block_number + WINDOW_LENGTH, key) :: db.queuedKeys
      | none => db.queuedKeys }

/-- `Scanner::acknowledge_block` (src/processor/scanner/src/lib.rs:326-361).
`none` is a panic from one of its asserts. The skipped-block loop is the
code's `for b in (prior + 1) .. (block_number - 1)`: a Rust `..` range is
exclusive above, so it visits `prior + 1, …, block_number - 2`, which
`List.range' (prior + 1) ((block_number - 1) - (prior + 1))` reproduces. -/
def acknowledge_block (WINDOW_LENGTH : Nat) (db : ScannerDb)
    (block_number : Nat) (key_to_activate : Option Key) : Option ScannerDb :=
  -- assert!(is_block_notable(&txn, block_number), "acknowledging a block which wasn't notable")
  if db.notable block_number then
    match db.highestAcknowledgedBlock with
    | some prior =>
      -- assert!(block_number > prior, "acknowledging blocks out-of-order")
      if block_number > prior then
        -- for b in (prior + 1) .. (block_number - 1) { assert!(!is_block_notable(b), ..) }
        if (List.range' (prior + 1) ((block_number - 1) - (prior + 1))).any
            db.notable then
          none
        else
          some (commitAcknowledge WINDOW_LENGTH db block_number key_to_activate)
      else none
    | none => some (commitAcknowledge WINDOW_LENGTH db block_number key_to_activate)
  else none

/-- Modelled from the spec: `SubstrateToEventualityDb::send_burns`
(`db` module, absent from the excerpt) records the burns under the given
acknowledged-block stamp, per the layout `scanner/burns/<acked_as_of:u64>`. -/
def send_burns (db : ScannerDb) (queue_as_of : Nat) (burns : List Nat) :
    ScannerDb :=
  { db with pendingBurns := (queue_as_of, burns) :: db.pendingBurns }

/-- `Scanner::queue_burns` (src/processor/scanner/src/lib.rs:392-397).
`none` is the `.expect("queueing Burns yet never acknowledged a block")`
panic. -/
def queue_burns (db : ScannerDb) (burns : List Nat) : Option ScannerDb :=
  match db.highestAcknowledgedBlock with
  | none => none
  | some queue_as_of => some (send_burns db queue_as_of burns)

/-- The C1 failing input: blocks 1, 2, 3 notable, block 1 already the
highest acknowledged block. -/
def skippedNotableDb : ScannerDb :=
  { notable := fun m => decide (1 ≤ m ∧ m ≤ 3)
    highestAcknowledgedBlock := some 1
    queuedKeys := []
    pendingBurns := [] }

/-- A state whose only notable block is 5, with block 2 acknowledged. -/
def ackWitnessDb : ScannerDb :=
  { notable := fun m => decide (m = 5)
    highestAcknowledgedBlock := some 2
    queuedKeys := []
    pendingBurns := [] }

/-- A state whose only notable block is 100, with nothing acknowledged. -/
def ackKeyWitnessDb : ScannerDb :=
  { notable := fun m => decide (m = 100)
    highestAcknowledgedBlock := none
    queuedKeys := []
    pendingBurns := [] }

/-- A state whose only notable block is 7, with nothing acknowledged. -/
def firstAckDb : ScannerDb :=
  { notable := fun m => decide (m = 7)
    highestAcknowledgedBlock := none
    queuedKeys := []
    pendingBurns := [] }

/-- A state with block 50 acknowledged and no pending burns. -/
def burnsWitnessDb : ScannerDb :=
  { notable := fun _ => false
    highestAcknowledgedBlock := some 50
    queuedKeys := []
    pendingBurns := [] }

/-- Lowercase hex of one byte, zero-padded to two digits — one byte of
`hex::encode`. -/
def hexByte (b : Nat) : String :=
  String.mk [Nat.digitChar (b / 16 % 16), Nat.digitChar (b % 16)]

/-- `hex::encode`: every byte as two lowercase hex digits. -/
def hexEncode (bs : Bytes) : String :=
  String.join (bs.map hexByte)

/-- The observable outcome of running a fallible Rust function: either a
`panic!` carrying its message, or the returned value. -/
inductive RunResult (α : Type) where
  | panicked : String → RunResult α
  | ok : α → RunResult α

/-- `ScannerFeed::block_by_number`
(src/processor/scanner/src/lib.rs:115-139). `fetch` is
`unchecked_block_by_number` (its error rendered as the Debug string Rust
interpolates via `{e:?}`), and `block_id` is the mapping persisted by the
Index task (`crate::index::block_id`). -/
def block_by_number (fetch : Nat → Except String Block)
    (block_id : Nat → Bytes) (number : Nat) :
    RunResult (Except String Block) :=
  match fetch number with
  | .error e =>
    .ok (.error ("couldn't fetch block " ++ toString number ++ ": " ++ e))
  | .ok block =>
    let expected := block_id number
    if block.id ≠ expected then
      .panicked ("finalized chain reorganized from " ++ hexEncode expected ++
        " to " ++ hexEncode block.id ++ " at " ++ toString number)
    else
      .ok (.ok block)

/-- An abstract byte serializer, standing for the `write`/`read` pair the
`primitives` crate defines on `Address` and `ReceivedOutput`. Reading is
stream-based (`io::Read`): it consumes a prefix and leaves the rest. -/
structure Codec (α : Type) where
  write : α → List Nat
  read : List Nat → Option (α × List Nat)

/-- The round-trip contract those serializers satisfy. -/
def Codec.lawful {α : Type} (c : Codec α) : Prop :=
  ∀ a rest, c.read (c.write a ++ rest) = some (a, rest)

/-- `Return` (src/processor/scanner/src/lib.rs:176-180): an address and
the output that must be refunded to it. -/
structure Return (A O : Type) where
  address : A
  output : O
deriving DecidableEq

/-- `Return::write` (lib.rs:183-186): the address's bytes then the
output's bytes. -/
def Return.write {A O : Type} (ca : Codec A) (co : Codec O)
    (r : Return A O) : List Nat :=
  ca.write r.address ++ co.write r.output

/-- `Return::read` (lib.rs:188-193): read the address, then the output,
from the same stream. -/
def Return.read {A O : Type} (ca : Codec A) (co : Codec O)
    (bytes : List Nat) : Option (Return A O × List Nat) :=
  match ca.read bytes with
  | none => none
  | some (address, rest) =>
    match co.read rest with
    | none => none
    | some (output, rest') => some (⟨address, output⟩, rest')

/-- A concrete serializer: one byte per value. -/
def natCodec : Codec Nat where
  write n := [n]
  read bytes :=
    match bytes with
    | [] => none
    | x :: xs => some (x, xs)

/-- The two router-contract events the lookup filters for. -/
inductive LogKind where
  | keyUpdated
  | executed
deriving DecidableEq

/-- An Ethereum log entry as the lookup sees it: which event, in which
block, under which nonce topic, and the transaction that emitted it. -/
structure Log where
  kind : LogKind
  blockNumber : Nat
  nonce : Nat
  transactionHash : Nat
deriving DecidableEq

/-- The RPC provider: its log store (in provider order) and
`get_transaction_by_hash`. -/
structure Provider where
  logs : List Log
  transactionByHash : Nat → Nat

/-- `get_logs` with a `key_updated_filter()`/`executed_filter()` chain:
events of the given kind, block range `[fromBlock, toBlock]`, and
`topic1(nonce)`. -/
def getLogs (p : Provider) (kind : LogKind) (fromBlock toBlock nonce : Nat) :
    List Log :=
  p.logs.filter fun l =>
    l.kind == kind && decide (fromBlock ≤ l.blockNumber) &&
      decide (l.blockNumber ≤ toBlock) && l.nonce == nonce

/-- The loop body of `get_transaction_by_eventuality`
(src/processor/ethereum/TODO/old_processor.rs:65-104): per epoch `b`,
first the KeyUpdated logs of blocks `[b*32, (b+1)*32 - 1]`, then the
Executed logs of the same range; the first hit's transaction is returned,
an empty epoch `continue`s, and exhausting the loop is the
`panic!("couldn't find completion in any three of checked blocks")`
(modelled as `none`). -/
def lookupInEpochs (p : Provider) (nonce : Nat) : List Nat → Option Nat
  | [] => none
  | b :: rest =>
    match (getLogs p .keyUpdated (b * 32) ((b + 1) * 32 - 1) nonce).head? with
    | some log => some (p.transactionByHash log.transactionHash)
    | none =>
      match getLogs p .executed (b * 32) ((b + 1) * 32 - 1) nonce with
      | [] => lookupInEpochs p nonce rest
      | log :: _ => some (p.transactionByHash log.transactionHash)

/-- `get_transaction_by_eventuality` (old_processor.rs:57-106): scan the
epochs `block.saturating_sub(3) ..= block`. -/
def get_transaction_by_eventuality (p : Provider) (block nonce : Nat) :
    Option Nat :=
  lookupInEpochs p nonce (List.range' (block - 3) (block + 1 - (block - 3)))

/-- Stated from the claim's words: the matching logs of one epoch,
KeyUpdated before Executed, each filtered to `[epoch*32, (epoch+1)*32 - 1]`. -/
def epochMatches (p : Provider) (nonce epoch : Nat) : List Log :=
  getLogs p .keyUpdated (epoch * 32) ((epoch + 1) * 32 - 1) nonce ++
    getLogs p .executed (epoch * 32) ((epoch + 1) * 32 - 1) nonce

/-- Stated from the claim's words: search the epochs from
`block.saturating_sub(3)` through `block` inclusive and return the
transaction of the first matching log; no match anywhere is the panic. -/
def transactionSearchSpec (p : Provider) (block nonce : Nat) : Option Nat :=
  ((List.range' (block - 3) (block + 1 - (block - 3))).findSome?
    fun epoch => (epochMatches p nonce epoch).head?).map
    fun log => p.transactionByHash log.transactionHash

theorem bytesCmp_eq_iff (a b : Bytes) : bytesCmp a b = .eq ↔ a = b := by
  induction a generalizing b with
  | nil => cases b <;> simp [bytesCmp]
  | cons x xs ih =>
    cases b with
    | nil => simp [bytesCmp]
    | cons y ys =>
      simp only [bytesCmp]
      rcases h : compare x y with h' | h' | h'
      · simp only []
        constructor
        · intro hc; exact absurd hc (by simp [h])
        · rintro ⟨rfl, rfl⟩
          rw [Nat.compare_eq_eq.mpr rfl] at h; exact absurd h (by simp)
      · rw [Nat.compare_eq_eq] at h
        subst h
        simpa using ih ys
      · constructor
        · intro hc; exact absurd hc (by simp [h])
        · rintro ⟨rfl, rfl⟩
          rw [Nat.compare_eq_eq.mpr rfl] at h; exact absurd h (by simp)

theorem bytesCmp_refl (a : Bytes) : bytesCmp a a = .eq :=
  (bytesCmp_eq_iff a a).mpr rfl

/-- Swapping the arguments swaps the ordering. -/
theorem bytesCmp_swap (a b : Bytes) : bytesCmp b a = (bytesCmp a b).swap := by
  induction a generalizing b with
  | nil => cases b <;> simp [bytesCmp, Ordering.swap]
  | cons x xs ih =>
    cases b with
    | nil => simp [bytesCmp, Ordering.swap]
    | cons y ys =>
      simp only [bytesCmp]
      rcases h : compare x y with h' | h' | h'
      · rw [Nat.compare_eq_lt] at h
        rw [Nat.compare_eq_gt.mpr h]
        rfl
      · rw [Nat.compare_eq_eq] at h
        subst h
        rw [Nat.compare_eq_eq.mpr rfl]
        exact ih ys
      · rw [Nat.compare_eq_gt] at h
        rw [Nat.compare_eq_lt.mpr h]
        rfl

/-- Transitivity of the strict byte order. -/
theorem bytesCmp_lt_trans {a b c : Bytes} (hab : bytesCmp a b = .lt)
    (hbc : bytesCmp b c = .lt) : bytesCmp a c = .lt := by
  induction a generalizing b c with
  | nil =>
    cases b with
    | nil => exact absurd hab (by simp [bytesCmp])
    | cons y ys =>
      cases c with
      | nil => exact absurd hbc (by simp [bytesCmp])
      | cons z zs => simp [bytesCmp]
  | cons x xs ih =>
    cases b with
    | nil => exact absurd hab (by simp [bytesCmp])
    | cons y ys =>
      cases c with
      | nil => exact absurd hbc (by simp [bytesCmp])
      | cons z zs =>
        simp only [bytesCmp] at hab hbc ⊢
        rcases hxy : compare x y with h | h | h <;> rw [hxy] at hab
        · rw [Nat.compare_eq_lt] at hxy
          rcases hyz : compare y z with h | h | h <;> rw [hyz] at hbc
          · rw [Nat.compare_eq_lt] at hyz
            rw [Nat.compare_eq_lt.mpr (Nat.lt_trans hxy hyz)]
          · rw [Nat.compare_eq_eq] at hyz
            subst hyz
            rw [Nat.compare_eq_lt.mpr hxy]
          · exact absurd hbc (by simp)
        · rw [Nat.compare_eq_eq] at hxy
          subst hxy
          rcases hyz : compare x z with h | h | h <;> rw [hyz] at hbc
          · exact ih hab hbc
          · exact Ordering.noConfusion hbc
        · exact absurd hab (by simp)

/-- If `sort_outputs` returns an ordering, it is the byte comparison of
the two IDs. -/
theorem sort_outputs_eq_some {a b : Output} {r : Ordering}
    (h : sort_outputs a b = some r) : bytesCmp a.id b.id = r := by
  unfold sort_outputs at h
  by_cases hc : bytesCmp a.id b.id = .eq
  · simp [hc] at h
  · simp [hc] at h; exact h

/-- `sort_outputs` never reports equality: the assert fires instead. -/
theorem sort_outputs_ne_eq (a b : Output) : sort_outputs a b ≠ some .eq := by
  intro h
  have heq := sort_outputs_eq_some h
  unfold sort_outputs at h
  simp [heq] at h

/-- The strict "before" order `sort_outputs` sorts by. -/

theorem insertOutput_perm {x : Output} {ys l : List Output}
    (h : insertOutput x ys = some l) : l.Perm (x :: ys) := by
  induction ys generalizing l with
  | nil =>
    simp [insertOutput] at h
    subst h
    exact List.Perm.refl _
  | cons y ys ih =>
    simp only [insertOutput] at h
    rcases hc : sort_outputs x y with _ | r <;> rw [hc] at h
    · exact absurd h (by simp)
    · cases r with
      | lt =>
        simp at h
        subst h
        exact List.Perm.refl _
      | eq => exact absurd hc (sort_outputs_ne_eq x y)
      | gt =>
        simp only [Option.map_eq_some'] at h
        obtain ⟨m, hm, rfl⟩ := h
        exact (List.Perm.cons y (ih hm)).trans (List.Perm.swap x y ys)

theorem insertOutput_pairwise {x : Output} {ys l : List Output}
    (hp : ys.Pairwise outLt) (h : insertOutput x ys = some l) :
    l.Pairwise outLt := by
  induction ys generalizing l with
  | nil =>
    simp [insertOutput] at h
    subst h
    simp
  | cons y ys ih =>
    simp only [insertOutput] at h
    rcases hc : sort_outputs x y with _ | r <;> rw [hc] at h
    · exact absurd h (by simp)
    · cases r with
      | lt =>
        simp at h
        subst h
        have hxy : outLt x y := sort_outputs_eq_some hc
        refine List.pairwise_cons.mpr ⟨?_, hp⟩
        intro a ha
        rcases List.mem_cons.mp ha with rfl | ha
        · exact hxy
        · exact bytesCmp_lt_trans hxy ((List.pairwise_cons.mp hp).1 a ha)
      | eq => exact absurd hc (sort_outputs_ne_eq x y)
      | gt =>
        simp only [Option.map_eq_some'] at h
        obtain ⟨m, hm, rfl⟩ := h
        have hyx : outLt y x := by
          have := sort_outputs_eq_some hc
          show bytesCmp y.id x.id = .lt
          rw [bytesCmp_swap, this]
          rfl
        refine List.pairwise_cons.mpr ⟨?_, ih (List.pairwise_cons.mp hp).2 hm⟩
        intro a ha
        have : a ∈ x :: ys := (insertOutput_perm hm).mem_iff.mp ha
        rcases List.mem_cons.mp this with rfl | ha'
        · exact hyx
        · exact (List.pairwise_cons.mp hp).1 a ha'

theorem insertOutput_dup_none {x : Output} {ys : List Output}
    (hp : ys.Pairwise outLt) (hmem : x.id ∈ ys.map Output.id) :
    insertOutput x ys = none := by
  induction ys with
  | nil => simp at hmem
  | cons y ys ih =>
    simp only [List.map_cons, List.mem_cons] at hmem
    simp only [insertOutput]
    rcases hmem with hxy | hmem
    · have hnone : sort_outputs x y = none := by
        unfold sort_outputs
        simp [(bytesCmp_eq_iff x.id y.id).mpr hxy]
      rw [hnone]
    · rcases hc : sort_outputs x y with _ | r
      · rfl
      · cases r with
        | lt =>
          exfalso
          have hxy := sort_outputs_eq_some hc
          obtain ⟨z, hz, hzid⟩ := List.mem_map.mp hmem
          have hyz : bytesCmp y.id z.id = .lt := (List.pairwise_cons.mp hp).1 z hz
          have hcontra : bytesCmp x.id x.id = .lt :=
            bytesCmp_lt_trans hxy (hzid ▸ hyz)
          rw [bytesCmp_refl] at hcontra
          exact Ordering.noConfusion hcontra
        | eq => exact absurd hc (sort_outputs_ne_eq x y)
        | gt =>
          rw [ih (List.pairwise_cons.mp hp).2 hmem]
          rfl

theorem sortByOutputs_sound {xs l : List Output}
    (h : sortByOutputs xs = some l) : l.Perm xs ∧ l.Pairwise outLt := by
  induction xs generalizing l with
  | nil =>
    simp [sortByOutputs] at h
    subst h
    simp
  | cons x xs ih =>
    simp only [sortByOutputs] at h
    rcases hs : sortByOutputs xs with _ | m <;> rw [hs] at h
    · exact absurd h (by simp)
    · obtain ⟨hperm, hpair⟩ := ih hs
      exact ⟨(insertOutput_perm h).trans (hperm.cons x),
        insertOutput_pairwise hpair h⟩

theorem sortByOutputs_dup_none {xs : List Output}
    (h : ¬ (xs.map Output.id).Nodup) : sortByOutputs xs = none := by
  induction xs with
  | nil => simp at h
  | cons x xs ih =>
    simp only [sortByOutputs]
    by_cases hmem : x.id ∈ xs.map Output.id
    · rcases hs : sortByOutputs xs with _ | m
      · rfl
      · obtain ⟨hperm, hpair⟩ := sortByOutputs_sound hs
        have hx : x.id ∈ m.map Output.id :=
          ((hperm.map Output.id).mem_iff).mpr hmem
        show insertOutput x m = none
        exact insertOutput_dup_none hpair hx
    · have hnd : ¬ (xs.map Output.id).Nodup := by
        intro hn
        exact h (by simpa [List.nodup_cons, hmem] using hn)
      rw [ih hnd]

/-- C6: `sort_outputs(a, b)` returns the byte-lexicographic ordering of
`a.id()` versus `b.id()` — a strict total order (asymmetric under swap,
transitive, trichotomous) — and panics exactly when the two IDs are
byte-equal. -/
theorem sort_outputs_strict_total_order (a b : Output) :
    (sort_outputs a b = none ↔ a.id = b.id) ∧
    (∀ r, sort_outputs a b = some r → r = bytesCmp a.id b.id ∧ r ≠ .eq) ∧
    (sort_outputs b a = (sort_outputs a b).map Ordering.swap) ∧
    (∀ c, sort_outputs a b = some .lt → sort_outputs b c = some .lt →
      sort_outputs a c = some .lt) := by
  refine ⟨?_, ?_, ?_, ?_⟩
  · unfold sort_outputs
    rcases h : bytesCmp a.id b.id with h' | h' | h' <;>
      simp [h, ← bytesCmp_eq_iff, *]
  · intro r hr
    unfold sort_outputs at hr
    by_cases h : bytesCmp a.id b.id = .eq
    · simp [h] at hr
    · simp [h] at hr
      exact ⟨hr.symm, hr ▸ h⟩
  · unfold sort_outputs
    rw [bytesCmp_swap a.id b.id]
    rcases h : bytesCmp a.id b.id with h' | h' | h' <;> simp [Ordering.swap]
  · intro c hab hbc
    unfold sort_outputs at hab hbc ⊢
    rcases h1 : bytesCmp a.id b.id with h | h | h <;> rw [h1] at hab <;>
      simp_all
    rcases h2 : bytesCmp b.id c.id with h | h | h <;> rw [h2] at hbc <;>
      simp_all
    have := bytesCmp_lt_trans h1 h2
    simp [this]

/-- Witness for C6 at concrete outputs: the transitivity part applied at
IDs `[1] < [2] < [3]`, with both hypotheses discharged by evaluation. -/
theorem sort_outputs_strict_total_order_witness :
    sort_outputs ⟨[1], 0⟩ ⟨[3], 0⟩ = some .lt :=
  (sort_outputs_strict_total_order ⟨[1], 0⟩ ⟨[2], 0⟩).2.2.2 ⟨[3], 0⟩
    (by decide) (by decide)

/-- C7: `scan_for_outputs(K)` yields a permutation of
`scan_for_outputs_unordered(K)` — nothing added, nothing dropped —
strictly ascending by output ID, and panics whenever two of the scanned
outputs share an ID. -/
theorem scan_for_outputs_sorted_permutation (b : Block) (key : Key) :
    (∀ l, b.scan_for_outputs key = some l →
      l.Perm (b.scan_for_outputs_unordered key) ∧ l.Pairwise outLt) ∧
    (¬ ((b.scan_for_outputs_unordered key).map Output.id).Nodup →
      b.scan_for_outputs key = none) := by
  constructor
  · intro l h
    exact sortByOutputs_sound h
  · intro h
    exact sortByOutputs_dup_none h

/-- Witness for C7: a two-output block sorts into ascending order, and a
block carrying a duplicated ID panics. -/
theorem scan_for_outputs_sorted_permutation_witness :
    (([⟨[1], 7⟩, ⟨[2], 5⟩] : List Output).Perm
        (Block.scan_for_outputs_unordered ⟨[9], fun _ => [⟨[2], 5⟩, ⟨[1], 7⟩]⟩ 0) ∧
      ([⟨[1], 7⟩, ⟨[2], 5⟩] : List Output).Pairwise outLt) ∧
    Block.scan_for_outputs ⟨[9], fun _ => [⟨[2], 5⟩, ⟨[2], 7⟩]⟩ 0 = none :=
  ⟨(scan_for_outputs_sorted_permutation ⟨[9], fun _ => [⟨[2], 5⟩, ⟨[1], 7⟩]⟩ 0).1
      [⟨[1], 7⟩, ⟨[2], 5⟩] (by decide),
    (scan_for_outputs_sorted_permutation ⟨[9], fun _ => [⟨[2], 5⟩, ⟨[2], 7⟩]⟩ 0).2
      (by decide)⟩

/-- Anatomy of a successful `acknowledge_block`: the notability assert
held, any prior acknowledgement was strictly below the block, and the
commit wrote exactly `commitAcknowledge`. -/
theorem acknowledge_block_some {W : Nat} {db : ScannerDb} {n : Nat}
    {key : Option Key} {db' : ScannerDb}
    (h : acknowledge_block W db n key = some db') :
    db.notable n = true ∧
    (∀ p, db.highestAcknowledgedBlock = some p → p < n) ∧
    db' = commitAcknowledge W db n key := by
  unfold acknowledge_block at h
  split at h
  next hn =>
    split at h
    next prior heq =>
      split at h
      next hgt =>
        split at h
        next hany => exact Option.noConfusion h
        next hany =>
          refine ⟨hn, ?_, (Option.some.inj h).symm⟩
          intro q hq
          rw [heq] at hq
          cases Option.some.inj hq
          exact hgt
      next hgt => exact Option.noConfusion h
    next heq =>
      refine ⟨hn, ?_, (Option.some.inj h).symm⟩
      intro q hq
      rw [heq] at hq
      exact Option.noConfusion hq
  next hn => exact Option.noConfusion h

/-- C1 (refuted; code bug): with highest acknowledged block 1 and blocks
2 and 3 notable, `acknowledge_block(txn, 3, None)` succeeds even though
the skipped block 2 (1 < 2 < 3) is notable — the claim, the spec and the
assert's own message ("skipped acknowledging a block which was notable")
all require a panic here. The loop `for b in (prior + 1) .. (block_number - 1)`
uses a Rust exclusive range and so never checks skipped block
`block_number - 1`. -/
theorem acknowledge_block_misses_last_skipped_block :
    skippedNotableDb.notable 2 = true ∧
    skippedNotableDb.highestAcknowledgedBlock = some 1 ∧
    (acknowledge_block 10 skippedNotableDb 3 none).map
      ScannerDb.highestAcknowledgedBlock = some (some 3) := by
  decide

/-- C3: a non-panicking `acknowledge_block(txn, n, _)` implies block `n`
was notable and `n` strictly exceeds any prior highest acknowledged
block; it persists `n` as the new highest acknowledged block, so the
persisted value strictly increases across successive successful calls. -/
theorem acknowledge_block_strictly_increases (W : Nat) (db : ScannerDb)
    (n : Nat) (key : Option Key) (db' : ScannerDb)
    (h : acknowledge_block W db n key = some db') :
    db.notable n = true ∧
    (∀ p, db.highestAcknowledgedBlock = some p → p < n) ∧
    db'.highestAcknowledgedBlock = some n ∧
    (∀ (W2 n2 : Nat) (key2 : Option Key) (db'' : ScannerDb),
      acknowledge_block W2 db' n2 key2 = some db'' → n < n2) := by
  obtain ⟨hn, hord, hcommit⟩ := acknowledge_block_some h
  refine ⟨hn, hord, ?_, ?_⟩
  · rw [hcommit]; rfl
  · intro W2 n2 key2 db'' h2
    obtain ⟨-, hord2, -⟩ := acknowledge_block_some h2
    exact hord2 n (by rw [hcommit]; rfl)

/-- Witness for C3: acknowledging notable block 5 on top of prior 2
persists 5 as the highest acknowledged block. -/
theorem acknowledge_block_strictly_increases_witness :
    (commitAcknowledge 3 ackWitnessDb 5 none).highestAcknowledgedBlock = some 5 :=
  (acknowledge_block_strictly_increases 3 ackWitnessDb 5 none
    (commitAcknowledge 3 ackWitnessDb 5 none) rfl).2.2.1

/-- C4: a successful `acknowledge_block(txn, n, Some(K))` queues `K` for
activation at height `n + WINDOW_LENGTH`; with `key_to_activate = None`
no key is queued. -/
theorem acknowledge_block_queues_key (W : Nat) (db : ScannerDb) (n : Nat)
    (key : Option Key) (db' : ScannerDb)
    (h : acknowledge_block W db n key = some db') :
    (∀ K, key = some K → db'.queuedKeys = (n + W, K) :: db.queuedKeys) ∧
    (key = none → db'.queuedKeys = db.queuedKeys) := by
  obtain ⟨-, -, hcommit⟩ := acknowledge_block_some h
  subst hcommit
  constructor
  · rintro K rfl
    rfl
  · rintro rfl
    rfl

/-- Witness for C4: acknowledging block 100 with `WINDOW_LENGTH = 10`
queues the key (42) at height 110. -/
theorem acknowledge_block_queues_key_witness :
    (commitAcknowledge 10 ackKeyWitnessDb 100 (some 42)).queuedKeys = [(110, 42)] := by
  have h := (acknowledge_block_queues_key 10 ackKeyWitnessDb 100 (some 42)
    (commitAcknowledge 10 ackKeyWitnessDb 100 (some 42)) rfl).1 42 rfl
  simpa [ackKeyWitnessDb] using h

/-- C10: on the first ever acknowledgement (no highest acknowledged
block persisted), only the notability assert applies: any notable block
number is accepted and committed, with no ordering check and no
skipped-block notability checks. -/
theorem acknowledge_block_first_acknowledgement (W : Nat) (db : ScannerDb)
    (n : Nat) (key : Option Key)
    (h : db.highestAcknowledgedBlock = none) :
    acknowledge_block W db n key =
      if db.notable n then some (commitAcknowledge W db n key) else none := by
  unfold acknowledge_block
  rw [h]

/-- Witness for C10: block 7, notable and never preceded by any
acknowledgement, is accepted outright. -/
theorem acknowledge_block_first_acknowledgement_witness :
    acknowledge_block 4 firstAckDb 7 none =
      if firstAckDb.notable 7 then some (commitAcknowledge 4 firstAckDb 7 none)
      else none :=
  acknowledge_block_first_acknowledgement 4 firstAckDb 7 none rfl

/-- C5: `queue_burns` panics exactly when no block has ever been
acknowledged; otherwise it records the burns stamped with the current
persisted highest acknowledged block. -/
theorem queue_burns_requires_acknowledgement (db : ScannerDb)
    (burns : List Nat) :
    (queue_burns db burns = none ↔ db.highestAcknowledgedBlock = none) ∧
    (∀ a, db.highestAcknowledgedBlock = some a →
      ∃ db', queue_burns db burns = some db' ∧
        db'.pendingBurns = (a, burns) :: db.pendingBurns) := by
  constructor
  · rcases hp : db.highestAcknowledgedBlock with _ | a <;>
      simp [queue_burns, hp]
  · intro a ha
    refine ⟨send_burns db a burns, ?_, rfl⟩
    simp [queue_burns, ha]

/-- Witness for C5: with block 50 acknowledged, two burns are recorded
stamped with 50. -/
theorem queue_burns_requires_acknowledgement_witness :
    ∃ db', queue_burns burnsWitnessDb [1, 2] = some db' ∧
      db'.pendingBurns = (50, [1, 2]) :: burnsWitnessDb.pendingBurns :=
  (queue_burns_requires_acknowledgement burnsWitnessDb [1, 2]).2 50 rfl

/-- C2: if the fetched block's ID differs from the persisted one,
`block_by_number` panics with the reorg message (IDs hex-encoded); if the
fetch itself fails it returns an `Err` and does not panic. -/
theorem block_by_number_reorg_panics (fetch : Nat → Except String Block)
    (block_id : Nat → Bytes) (n : Nat) :
    (∀ b, fetch n = .ok b → b.id ≠ block_id n →
      block_by_number fetch block_id n =
        .panicked ("finalized chain reorganized from " ++
          hexEncode (block_id n) ++ " to " ++ hexEncode b.id ++ " at " ++
          toString n)) ∧
    (∀ e, fetch n = .error e →
      block_by_number fetch block_id n =
        .ok (.error ("couldn't fetch block " ++ toString n ++ ": " ++ e))) := by
  constructor
  · intro b hb hne
    unfold block_by_number
    rw [hb]
    simp [hne]
  · intro e he
    unfold block_by_number
    rw [he]

/-- Witness for C2: persisted ID `cd`, fetched ID `ab` at block 5 panics
with the expected message; a failing fetch at block 5 yields `Err`. -/
theorem block_by_number_reorg_panics_witness :
    block_by_number (fun _ => .ok ⟨[0xab], fun _ => []⟩) (fun _ => [0xcd]) 5 =
      .panicked "finalized chain reorganized from cd to ab at 5" ∧
    block_by_number (fun _ => .error "timeout") (fun _ => [0xcd]) 5 =
      .ok (.error "couldn't fetch block 5: timeout") := by
  constructor
  · have h := (block_by_number_reorg_panics
      (fun _ => .ok ⟨[0xab], fun _ => []⟩) (fun _ => [0xcd]) 5).1
      ⟨[0xab], fun _ => []⟩ rfl (by decide)
    rw [h]
    rfl
  · have h := (block_by_number_reorg_panics
      (fun _ => .error "timeout") (fun _ => [0xcd]) 5).2 "timeout" rfl
    rw [h]
    rfl

/-- C8: for lawful component serializers, `Return::write` then
`Return::read` is the identity on any `Return` (and leaves trailing bytes
untouched). -/
theorem return_write_read_roundtrip {A O : Type} (ca : Codec A)
    (co : Codec O) (ha : ca.lawful) (ho : co.lawful) (r : Return A O)
    (rest : List Nat) :
    Return.read ca co (Return.write ca co r ++ rest) = some (r, rest) := by
  unfold Codec.lawful at ha ho
  simp [Return.write, Return.read, List.append_assoc, ha, ho]

/-- Witness for C8: round-tripping `Return { address := 5, output := 9 }`
through the one-byte serializers. -/
theorem return_write_read_roundtrip_witness :
    Return.read natCodec natCodec
      (Return.write natCodec natCodec ⟨5, 9⟩ ++ []) = some (⟨5, 9⟩, []) :=
  return_write_read_roundtrip natCodec natCodec (fun _ _ => rfl)
    (fun _ _ => rfl) ⟨5, 9⟩ []

/-- The two router-contract events the lookup filters for. -/

theorem lookupInEpochs_eq_findSome (p : Provider) (nonce : Nat)
    (es : List Nat) :
    lookupInEpochs p nonce es =
      (es.findSome? fun epoch => (epochMatches p nonce epoch).head?).map
        fun log => p.transactionByHash log.transactionHash := by
  induction es with
  | nil => rfl
  | cons b rest ih =>
    simp only [lookupInEpochs, List.findSome?_cons]
    rcases hku : (getLogs p .keyUpdated (b * 32) ((b + 1) * 32 - 1)
        nonce).head? with _ | log
    · have hnil : getLogs p .keyUpdated (b * 32) ((b + 1) * 32 - 1) nonce = [] :=
        List.head?_eq_none_iff.mp hku
      rcases hex : getLogs p .executed (b * 32) ((b + 1) * 32 - 1) nonce
        with _ | ⟨log, tl⟩
      · simp only [epochMatches, hnil, hex, List.nil_append, List.head?_nil]
        exact ih
      · simp only [epochMatches, hnil, hex, List.nil_append, List.head?_cons]
        rfl
    · have hhead : (epochMatches p nonce b).head? = some log := by
        simp only [epochMatches, List.head?_append, hku, Option.or_some]
      simp only [hhead]
      rfl

/-- C9: the legacy lookup searches exactly the epochs
`block.saturating_sub(3) ..= block`, each filtered to the log range
`[epoch*32, (epoch+1)*32 - 1]`, returns the transaction of the first
matching KeyUpdated or Executed log, and panics iff no epoch in that span
contains a match. -/
theorem get_transaction_by_eventuality_correct (p : Provider)
    (block nonce : Nat) :
    get_transaction_by_eventuality p block nonce =
      transactionSearchSpec p block nonce ∧
    (get_transaction_by_eventuality p block nonce = none ↔
      ∀ epoch ∈ List.range' (block - 3) (block + 1 - (block - 3)),
        epochMatches p nonce epoch = []) := by
  have hq := lookupInEpochs_eq_findSome p nonce
    (List.range' (block - 3) (block + 1 - (block - 3)))
  constructor
  · exact hq
  · rw [show get_transaction_by_eventuality p block nonce =
      lookupInEpochs p nonce
        (List.range' (block - 3) (block + 1 - (block - 3))) from rfl, hq]
    simp [List.findSome?_eq_none_iff, Option.map_eq_none',
      List.head?_eq_none_iff]

end Scanner
